import Mathlib

/-!
Verification of the rdma-dashboard chart-monitor sampling core.

Shallow embedding of the per-port sampling engine (`src/monitor.rs`,
`spawn_chart_monitor` and `PortHistory`) and of the counter-file parser
(`src/fast_io.rs`, `FastSysfsReader::read_u64`).

Modelling conventions:
* `u64` counter values are `Nat`; the wrapping `u64` arithmetic of the
  parser (`wrapping_mul` / `wrapping_add`) is made explicit with `% 2 ^ 64`.
* `f64` rates and `Instant` timestamps are `ℚ`.  The engine only subtracts,
  divides, compares and maximises rates, so exact rationals model every
  control-flow decision the claims are about.
* `Instant` subtraction in Rust saturates at zero; in the model a negative
  difference compares below every positive threshold exactly as a saturated
  zero would, so plain `ℚ` subtraction yields the same branch in every guard.
* A failed `read_u64` carries an `io::Error`; the engine only pattern-matches
  `Ok` vs `Err`, modelled with `Except ReadErr Nat`.
-/

namespace RdmaDash

/-- Port kind, from `crate::data::PortType` as consumed by
`monitor.rs` (`PortType::Rdma` / `PortType::Ethernet`). -/
inductive PortType where
  | Rdma
  | Ethernet
deriving DecidableEq, Repr

/-- Error kinds produced by `FastSysfsReader::read_u64` (`fast_io.rs`):
`UnexpectedEof` for an empty read, `InvalidData` for a non-digit,
non-terminator byte.  Transient read/seek failures of the OS are the
remaining `Err` source; the engine treats all of them alike. -/
inductive ReadErr where
  | unexpectedEof
  | invalidData
  | ioError
deriving DecidableEq, Repr

/-- Result of one `read_u64` call. -/
abbrev ReadResult := Except ReadErr Nat

/-- The modulus `2 ^ 64` of wrapping `u64` arithmetic in Rust. -/
def U64MOD : Nat := 2 ^ 64

/-- Digit byte predicate from `fast_io.rs` line 54: the byte is between
the ASCII codes of digit zero (48) and digit nine (57). -/
def isDigitByte (b : Nat) : Prop := 48 ≤ b ∧ b ≤ 57

instance (b : Nat) : Decidable (isDigitByte b) := by
  unfold isDigitByte; infer_instance

/-- Terminator byte predicate from `fast_io.rs` line 57: newline (10),
null (0) or space (32). -/
def isTermByte (b : Nat) : Prop := b = 10 ∨ b = 0 ∨ b = 32

instance (b : Nat) : Decidable (isTermByte b) := by
  unfold isTermByte; infer_instance

/-- The byte-parsing loop of `FastSysfsReader::read_u64`
(`fast_io.rs` lines 50–65): scan the bytes read; a digit is accumulated
with `num.wrapping_mul(10).wrapping_add(digit)` (hence the `% U64MOD`),
a newline/null/space terminates with the value so far, any other byte
aborts with `InvalidData`. -/
def parseLoop : List Nat → Nat → Except ReadErr Nat
  | [], num => .ok num
  | b :: rest, num =>
    if isDigitByte b then
      parseLoop rest ((num * 10 + (b - 48)) % U64MOD)
    else if isTermByte b then
      .ok num
    else
      .error .invalidData

/-- Function `FastSysfsReader::read_u64` (`fast_io.rs` lines 33–68) given the bytes
the underlying `read` returned (the filled prefix `buffer[..n]` of the
64-byte buffer): an empty read is `UnexpectedEof`, otherwise the bytes are
parsed by `parseLoop` starting from accumulator `0`.  The seek and the read
syscall themselves are outside the model; their failure is `ReadErr.ioError`
at the call sites of the engine. -/
def read_u64 (data : List Nat) : Except ReadErr Nat :=
  if data.length = 0 then .error .unexpectedEof
  else parseLoop data 0

/-- The unsigned integer a string of digit bytes denotes
(most significant digit first). -/
def digitsVal (ds : List Nat) : Nat :=
  ds.foldl (fun a b => a * 10 + (b - 48)) 0

/-- Structure `PortHistory` (`monitor.rs` lines 9–14): name, port type and the two
parallel `VecDeque<(f64, f64)>` time series, modelled as lists with the
front of the deque at the head. -/
structure PortHistory where
  name : String
  port_type : PortType
  rx_data : List (ℚ × ℚ)
  tx_data : List (ℚ × ℚ)
deriving DecidableEq

/-- Constructor `PortHistory::new` (`monitor.rs` lines 17–24): both series start empty
(`with_capacity(200)` only reserves storage). -/
def PortHistory.new (name : String) (port_type : PortType) : PortHistory :=
  { name := name, port_type := port_type, rx_data := [], tx_data := [] }

/-- Method `PortHistory::push_point` (`monitor.rs` lines 27–34): when the rx series
holds 200 or more points, the oldest point of each series is popped
(`pop_front`, a no-op on an empty deque, i.e. `List.tail`), then the new
pair is appended to the back of each series. -/
def PortHistory.push_point (h : PortHistory) (time rx tx : ℚ) : PortHistory :=
  let h1 :=
    if 200 ≤ h.rx_data.length then
      { h with rx_data := h.rx_data.tail, tx_data := h.tx_data.tail }
    else h
  { h1 with rx_data := h1.rx_data ++ [(time, rx)],
            tx_data := h1.tx_data ++ [(time, tx)] }

/-- The engine-local mutable state of `spawn_chart_monitor`
(`monitor.rs` lines 77–98): previous raw counter values, the
initialized flag, the window peak-hold accumulators, the commit / sample
timestamps, the logical time axis, and the shared history the engine
writes into. -/
structure SampleState where
  prev_rx : Nat
  prev_tx : Nat
  initialized : Bool
  window_max_rx : ℚ
  window_max_tx : ℚ
  last_commit_time : ℚ
  prev_sample_time : ℚ
  logical_time_axis : ℚ
  history : PortHistory
deriving DecidableEq

/-- The constant `commit_interval = Duration::from_millis(50)` (`monitor.rs` line 83),
in seconds. -/
def commitIntervalSec : ℚ := 1 / 20

/-- The epsilon of the guard `delta_time > 0.000_001`
(`monitor.rs` line 118), in seconds. -/
def minEpsilonSec : ℚ := 1 / 1000000

/-- The logical time-axis step `logical_time_axis += 0.05`
(`monitor.rs` line 157). -/
def logicalStepSec : ℚ := 1 / 20

/-- Steps B–C of the loop body plus the unconditional
`prev_sample_time = now` (`monitor.rs` lines 108–144).  When initialized
and both reads succeed: if `delta_time > ε` and both counters are
monotone, the instantaneous rates `(curr − prev) / delta_time` are folded
into the window peak-hold accumulators; in every case the previous
counter values advance to the newly read ones.  When uninitialized, a
successful pair of reads establishes the baseline.  The code applies no
unit multiplier to the deltas (`monitor.rs` lines 122–125), for either
port type. -/
def samplePhase (s : SampleState) (now : ℚ) (rxRes txRes : ReadResult) :
    SampleState :=
  let s1 :=
    if s.initialized then
      match rxRes, txRes with
      | .ok curr_rx, .ok curr_tx =>
        let delta_time := now - s.prev_sample_time
        let s2 :=
          if minEpsilonSec < delta_time then
            if s.prev_rx ≤ curr_rx ∧ s.prev_tx ≤ curr_tx then
              let rx_speed : ℚ := ((curr_rx - s.prev_rx : Nat) : ℚ) / delta_time
              let tx_speed : ℚ := ((curr_tx - s.prev_tx : Nat) : ℚ) / delta_time
              let sa :=
                if s.window_max_rx < rx_speed then
                  { s with window_max_rx := rx_speed } else s
              if sa.window_max_tx < tx_speed then
                { sa with window_max_tx := tx_speed } else sa
            else s
          else s
        { s2 with prev_rx := curr_rx, prev_tx := curr_tx }
      | _, _ => s
    else
      match rxRes, txRes with
      | .ok rx, .ok tx =>
        { s with prev_rx := rx, prev_tx := tx, initialized := true }
      | _, _ => s
  { s1 with prev_sample_time := now }

/-- Step D of the loop body (`monitor.rs` lines 146–158).  When the time
since the last commit has reached the commit interval, the engine attempts
`history.write()`; `lockOk` is whether that acquisition returned `Ok`
(with `std::sync::RwLock` the `Err` case is a poisoned lock).  On `Ok` the
window peaks are pushed as one point.  The reset of the accumulators, the
advance of the last-commit timestamp and the logical-time-axis step happen
after the `if let` and hence in the `Err` case as well. -/
def commitPhase (s : SampleState) (now : ℚ) (lockOk : Bool) : SampleState :=
  if commitIntervalSec ≤ now - s.last_commit_time then
    let s1 :=
      if lockOk then
        { s with history :=
            (s.history.push_point s.logical_time_axis s.window_max_rx
              s.window_max_tx) }
      else s
    { s1 with window_max_rx := 0, window_max_tx := 0,
              last_commit_time := now,
              logical_time_axis := s1.logical_time_axis + logicalStepSec }
  else s

/-- One iteration of the hardcore loop (`monitor.rs` lines 103–158),
sampling phase followed by the commit phase.  The drift-corrected sleep
(steps A and E) does not touch this state. -/
def tick (s : SampleState) (now : ℚ) (rxRes txRes : ReadResult)
    (lockOk : Bool) : SampleState :=
  commitPhase (samplePhase s now rxRes txRes) now lockOk

/-- The inputs one tick consumes: the wall-clock instant, the two counter
read results, and whether the history write acquisition returns `Ok`. -/
structure TickIn where
  now : ℚ
  rxRes : ReadResult
  txRes : ReadResult
  lockOk : Bool

/-- Run a sequence of ticks. -/
def runTicks (s : SampleState) (l : List TickIn) : SampleState :=
  l.foldl (fun s i => tick s i.now i.rxRes i.txRes i.lockOk) s

instance : DecidableEq ReadResult := fun a b =>
  match a, b with
  | .ok x, .ok y =>
    if h : x = y then isTrue (by rw [h])
    else isFalse (fun c => by cases c; exact h rfl)
  | .ok _, .error _ => isFalse (fun c => by cases c)
  | .error _, .ok _ => isFalse (fun c => by cases c)
  | .error e, .error f =>
    if h : e = f then isTrue (by rw [h])
    else isFalse (fun c => by cases c; exact h rfl)

/-- Modelled from the spec: the unit multiplier `bytes_per_count` that,
per the spec, is fixed from the port type at engine construction (4 for
an RDMA port, whose counters historically count 4-byte words, 1 for an
Ethernet port).  No such multiplier exists anywhere in `monitor.rs`; this
definition follows the words of the spec so that the rate the spec
prescribes can be compared with the rate the code computes. -/
def bytes_per_count : PortType → ℚ
  | .Rdma => 4
  | .Ethernet => 1

/-- Modelled from the spec: the per-direction rate the spec prescribes,
`rate = (new − old) × bytes_per_count / elapsed`. -/
def specRate (pt : PortType) (delta : Nat) (elapsed : ℚ) : ℚ :=
  (delta : ℚ) * bytes_per_count pt / elapsed

/-- Outcome of one writer acquisition on the shared `RwLock`, at the
granularity the claims about blocking need: the caller acquires at once,
or the caller is made to wait (blocking call, lock busy), or the call
returns at once without the lock (try variant, lock busy). -/
inductive WriteAcq where
  | acquired
  | blocked
  | wouldBlock
deriving DecidableEq, Repr

/-- Semantics of `std::sync::RwLock::write`, the blocking variant: per
its contract it blocks the calling thread until no reader or writer holds
the lock (the `Err` it can return concerns poisoning, not contention).
`readerHolds` abstracts the lock occupancy at the call. -/
def rwlockWrite (readerHolds : Bool) : WriteAcq :=
  if readerHolds then .blocked else .acquired

/-- Modelled from the spec: the non-blocking try-acquire the spec
prescribes for the writer (`try_write` semantics): when a reader holds
the lock the call returns at once without acquiring, and the caller does
not wait. -/
def specTryWrite (readerHolds : Bool) : WriteAcq :=
  if readerHolds then .wouldBlock else .acquired

/-- The writer acquisition the commit step performs: `monitor.rs`
line 148 calls `history.write()`, the blocking variant of
`std::sync::RwLock`. -/
def commitWriterAcquire (readerHolds : Bool) : WriteAcq :=
  rwlockWrite readerHolds

/-- The last `n` entries of a list (the list as a FIFO of capacity `n`
after all evictions). -/
def lastN (n : Nat) (l : List α) : List α :=
  (l.reverse.take n).reverse

/-- One aggregated point handed to `push_point`:
(logical time, rx peak, tx peak). -/
abbrev Point := ℚ × ℚ × ℚ

/-- The rx entry `(time, rx)` a point contributes to `rx_data`. -/
def rxEntry (p : Point) : ℚ × ℚ := (p.1, p.2.1)

/-- The tx entry `(time, tx)` a point contributes to `tx_data`. -/
def txEntry (p : Point) : ℚ × ℚ := (p.1, p.2.2)

/-- Push a sequence of points through `PortHistory.push_point`. -/
def pushPoints (h : PortHistory) (ps : List Point) : PortHistory :=
  ps.foldl (fun h p => h.push_point p.1 p.2.1 p.2.2) h

/-- The pair of instantaneous rates one tick contributes to the window
peak-hold accumulators, read off the guards of `samplePhase`: a
contribution exists exactly when the engine is initialized, both reads
succeed, the elapsed time exceeds the epsilon and both counters are
monotone; it is then `(curr − prev) / delta_time` for each direction. -/
def tickRates (s : SampleState) (now : ℚ) (rxRes txRes : ReadResult) :
    List (ℚ × ℚ) :=
  match rxRes, txRes with
  | .ok curr_rx, .ok curr_tx =>
    if s.initialized = true ∧ minEpsilonSec < now - s.prev_sample_time ∧
        s.prev_rx ≤ curr_rx ∧ s.prev_tx ≤ curr_tx then
      [(((curr_rx - s.prev_rx : Nat) : ℚ) / (now - s.prev_sample_time),
        ((curr_tx - s.prev_tx : Nat) : ℚ) / (now - s.prev_sample_time))]
    else []
  | _, _ => []

/-- All instantaneous rate pairs observed while running a sequence of
ticks from a given state. -/
def windowRates : SampleState → List TickIn → List (ℚ × ℚ)
  | _, [] => []
  | s, i :: is =>
    tickRates s i.now i.rxRes i.txRes ++
      windowRates (tick s i.now i.rxRes i.txRes i.lockOk) is

/-- The head of the remaining input is a terminator, or the input is
exhausted: the two ways the scan of `read_u64` stops with a value. -/
def headTermOk : List Nat → Prop
  | [] => True
  | b :: _ => isTermByte b

instance (l : List Nat) : Decidable (headTermOk l) := by
  unfold headTermOk; cases l <;> infer_instance

/-- A concrete engine state for the closed instances below: previous
counters, initialized flag, window peaks, last-commit / previous-sample
timestamps and logical time axis, over a fresh single-port history. -/
def mkState (prx ptx : Nat) (init : Bool) (wrx wtx lct pst lta : ℚ) :
    SampleState :=
  { prev_rx := prx, prev_tx := ptx, initialized := init,
    window_max_rx := wrx, window_max_tx := wtx, last_commit_time := lct,
    prev_sample_time := pst, logical_time_axis := lta,
    history := PortHistory.new "p" PortType.Rdma }


/-- Three sampling ticks inside one 50 ms window: instants 10, 20 and
30 ms with rx counter 1, 6, 9 and tx counter 1, 2, 3 (instantaneous rx
rates 100, 500, 300; tx rates 100, 100, 100). -/
def winTicks : List TickIn :=
  [⟨1/100, .ok 1, .ok 1, true⟩, ⟨2/100, .ok 6, .ok 2, true⟩,
   ⟨3/100, .ok 9, .ok 3, true⟩]

/-- The eligible commit tick closing that window, at 60 ms, with failed
reads (so it contributes no rate of its own) and a successful write. -/
def commitTick : TickIn := ⟨6/100, .error .ioError, .error .ioError, true⟩

/-! ## Lemmas about the parser -/

theorem parseLoop_cons (b : Nat) (rest : List Nat) (acc : Nat) :
    parseLoop (b :: rest) acc =
      if isDigitByte b then parseLoop rest ((acc * 10 + (b - 48)) % U64MOD)
      else if isTermByte b then .ok acc else .error .invalidData := rfl

theorem parseLoop_digits (ds rest : List Nat) (acc : Nat)
    (hds : ∀ b ∈ ds, isDigitByte b) :
    parseLoop (ds ++ rest) acc =
      parseLoop rest
        (ds.foldl (fun a b => (a * 10 + (b - 48)) % U64MOD) acc) := by
  induction ds generalizing acc with
  | nil => rfl
  | cons b ds ih =>
    have hb : isDigitByte b := hds b (by simp)
    rw [List.cons_append, parseLoop_cons, if_pos hb, List.foldl_cons]
    exact ih _ (fun x hx => hds x (List.mem_cons_of_mem b hx))

theorem foldl_digits_mod (ds : List Nat) (acc : Nat) :
    ds.foldl (fun a b => (a * 10 + (b - 48)) % U64MOD) (acc % U64MOD) =
      (ds.foldl (fun a b => a * 10 + (b - 48)) acc) % U64MOD := by
  induction ds generalizing acc with
  | nil => rfl
  | cons b ds ih =>
    rw [List.foldl_cons, List.foldl_cons]
    have h : (acc % U64MOD * 10 + (b - 48)) % U64MOD =
        (acc * 10 + (b - 48)) % U64MOD :=
      ((Nat.mod_modEq acc U64MOD).mul_right 10).add_right (b - 48)
    rw [h]
    exact ih (acc * 10 + (b - 48))

theorem isTermByte_not_digit {b : Nat} (h : isTermByte b) : ¬ isDigitByte b := by
  rcases h with h | h | h <;> subst h <;> decide

theorem parseLoop_term (rest : List Nat) (acc : Nat) (h : headTermOk rest) :
    parseLoop rest acc = .ok acc := by
  cases rest with
  | nil => rfl
  | cons b t =>
    have hb : isTermByte b := h
    rw [parseLoop_cons, if_neg (isTermByte_not_digit hb), if_pos hb]

theorem read_u64_ok_of_digits (ds rest : List Nat)
    (hds : ∀ b ∈ ds, isDigitByte b) (hterm : headTermOk rest)
    (hne : ds ++ rest ≠ []) :
    read_u64 (ds ++ rest) = .ok (digitsVal ds % U64MOD) := by
  unfold read_u64
  rw [if_neg (by simpa [List.length_eq_zero] using hne)]
  rw [parseLoop_digits ds rest 0 hds, parseLoop_term]
  · congr 1
    have h0 : (0 : Nat) = 0 % U64MOD := by decide
    rw [h0, foldl_digits_mod ds 0]
    rfl
  · exact hterm

/-! ## Claim C7 -/

/-- C7 (amended): `read_u64` parses decimal digits left-to-right from the
first byte and stops at the first newline, null or space byte or at the
end of the data, returning the unsigned integer those digits denote
reduced modulo `2 ^ 64` (the accumulation wraps); any other byte before
such a terminator yields `ParseError` and no value. -/
theorem c7_read_u64_digit_scan (ds rest : List Nat)
    (hds : ∀ b ∈ ds, isDigitByte b) :
    (headTermOk rest → ds ++ rest ≠ [] →
        read_u64 (ds ++ rest) = .ok (digitsVal ds % U64MOD)) ∧
    (∀ b rs, rest = b :: rs → ¬ isDigitByte b → ¬ isTermByte b →
        read_u64 (ds ++ rest) = .error .invalidData) := by
  constructor
  · intro hterm hne
    exact read_u64_ok_of_digits ds rest hds hterm hne
  · intro b rs hrest hnd hnt
    subst hrest
    unfold read_u64
    rw [if_neg (by simp)]
    rw [parseLoop_digits ds (b :: rs) _ hds, parseLoop_cons,
      if_neg hnd, if_neg hnt]

/-- C7 counterexample to the claim as stated: the buffer holding the
21-digit string for `10 ^ 20` (one byte 49 then twenty bytes 48) is all
digits, yet `read_u64` returns `10 ^ 20` reduced modulo `2 ^ 64`, not the
unsigned integer the digits denote. -/
theorem c7_counterexample :
    read_u64 (49 :: List.replicate 20 48) = .ok (10 ^ 20 % U64MOD) ∧
    digitsVal (49 :: List.replicate 20 48) = 10 ^ 20 ∧
    10 ^ 20 % U64MOD ≠ 10 ^ 20 :=
  ⟨by decide, by decide, by decide⟩

/-- C7 witness: the buffer with bytes 49, 50, newline parses to 12; the
buffer with bytes 49, 97 (digit one, letter a) is rejected. -/
theorem c7_witness :
    read_u64 [49, 50, 10] = .ok 12 ∧
    read_u64 [49, 97] = .error .invalidData := by
  constructor
  · have h := (c7_read_u64_digit_scan [49, 50] [10] (by decide)).1
      (by decide) (by decide)
    exact h.trans (by decide)
  · exact (c7_read_u64_digit_scan [49] [97] (by decide)).2 97 [] rfl
      (by decide) (by decide)

/-! ## Claim C9 -/

/-- C9: on an all-digit buffer, `read_u64` never fails: it accumulates
with wrapping `u64` arithmetic and returns the denoted value modulo
`2 ^ 64`; whenever the denoted value is below `2 ^ 64` the returned value
is exact. -/
theorem c9_read_u64_wrapping (ds : List Nat) (hne : ds ≠ [])
    (hds : ∀ b ∈ ds, isDigitByte b) :
    read_u64 ds = .ok (digitsVal ds % U64MOD) ∧
      (digitsVal ds < U64MOD → read_u64 ds = .ok (digitsVal ds)) := by
  have h : read_u64 (ds ++ []) = .ok (digitsVal ds % U64MOD) :=
    read_u64_ok_of_digits ds [] hds trivial (by simpa using hne)
  rw [List.append_nil] at h
  exact ⟨h, fun hlt => by rw [h, Nat.mod_eq_of_lt hlt]⟩

/-- C9 witness: twenty bytes 57 denote `10 ^ 20 − 1`, which is at least
`2 ^ 64`; `read_u64` returns it reduced modulo `2 ^ 64` without failing,
and on the two-digit buffer 52, 50 (denoting 42, below `2 ^ 64`) the
returned value is exact. -/
theorem c9_witness :
    U64MOD ≤ digitsVal (List.replicate 20 57) ∧
    read_u64 (List.replicate 20 57) =
      .ok (digitsVal (List.replicate 20 57) % U64MOD) ∧
    digitsVal (List.replicate 20 57) % U64MOD = 7766279631452241919 ∧
    read_u64 [52, 50] = .ok 42 :=
  ⟨by decide,
   (c9_read_u64_wrapping (List.replicate 20 57) (by decide) (by decide)).1,
   by decide,
   by
    have h := (c9_read_u64_wrapping [52, 50] (by decide) (by decide)).2
      (by decide)
    exact h.trans (by decide)⟩

/-! ## Claim C10 -/

/-- C10: when the underlying read succeeds but returns zero bytes, the
guard on `n == 0` makes `read_u64` return the `UnexpectedEof` error; an
empty file is never treated as the sample value 0 (or any value). -/
theorem c10_read_u64_empty_eof :
    read_u64 [] = .error .unexpectedEof ∧ ∀ v : Nat, read_u64 [] ≠ .ok v := by
  refine ⟨rfl, fun v h => ?_⟩
  simp only [read_u64, List.length_nil, if_pos rfl] at h
  cases h

/-! ## Lemmas about the bounded history -/

theorem lastN_of_length_le {l : List α} (h : l.length ≤ n) : lastN n l = l := by
  unfold lastN
  rw [List.take_of_length_le (by simpa using h), List.reverse_reverse]

theorem lastN_eq_drop (n : Nat) (l : List α) :
    lastN n l = l.drop (l.length - n) := by
  unfold lastN
  rw [List.reverse_take, List.reverse_reverse, List.length_reverse]

theorem length_lastN (n : Nat) (l : List α) :
    (lastN n l).length = min n l.length := by
  simp [lastN]

theorem lastN_append_left (n : Nat) (xs ys : List α) :
    lastN n (lastN n xs ++ ys) = lastN n (xs ++ ys) := by
  unfold lastN
  rw [List.reverse_append, List.reverse_append, List.reverse_reverse,
    List.take_append_eq_append_take, List.take_append_eq_append_take,
    List.take_take]
  have hmin : (n - ys.reverse.length) ⊓ n = n - ys.reverse.length :=
    min_eq_left (Nat.sub_le n _)
  rw [hmin]

theorem push_point_rx_data (h : PortHistory) (t rx tx : ℚ)
    (hlen : h.rx_data.length ≤ 200) :
    (h.push_point t rx tx).rx_data = lastN 200 (h.rx_data ++ [(t, rx)]) := by
  unfold PortHistory.push_point
  rcases Nat.lt_or_ge h.rx_data.length 200 with hlt | hge
  · rw [if_neg (by omega)]
    exact (lastN_of_length_le (by simp; omega)).symm
  · have h200 : h.rx_data.length = 200 := le_antisymm hlen hge
    rw [if_pos (by omega)]
    show h.rx_data.tail ++ [(t, rx)] = _
    rw [lastN_eq_drop]
    have hl : (h.rx_data ++ [(t, rx)]).length - 200 = 1 := by simp [h200]
    rw [hl, List.drop_append_of_le_length (by omega), List.drop_one]

theorem push_point_tx_data (h : PortHistory) (t rx tx : ℚ)
    (hlen : h.rx_data.length ≤ 200)
    (heq : h.tx_data.length = h.rx_data.length) :
    (h.push_point t rx tx).tx_data = lastN 200 (h.tx_data ++ [(t, tx)]) := by
  unfold PortHistory.push_point
  rcases Nat.lt_or_ge h.rx_data.length 200 with hlt | hge
  · rw [if_neg (by omega)]
    exact (lastN_of_length_le (by simp; omega)).symm
  · have h200 : h.tx_data.length = 200 := by omega
    rw [if_pos (by omega)]
    show h.tx_data.tail ++ [(t, tx)] = _
    rw [lastN_eq_drop]
    have hl : (h.tx_data ++ [(t, tx)]).length - 200 = 1 := by simp [h200]
    rw [hl, List.drop_append_of_le_length (by omega), List.drop_one]

/-! ## Claim C6 -/

/-- C6: starting from any history within capacity (both series at most
200 entries, equally long), any sequence of `push_point` calls leaves both
series equal to the last 200 entries of the original series extended by
the pushed entries.  Hence the length never exceeds 200, eviction is
strict FIFO (the surviving entries are a suffix, oldest evicted first,
relative order preserved), rx and tx are appended and evicted as a pair,
and their lengths stay equal. -/
theorem c6_history_capacity_fifo (h : PortHistory) (ps : List Point)
    (hlen : h.rx_data.length ≤ 200)
    (heq : h.tx_data.length = h.rx_data.length) :
    (pushPoints h ps).rx_data = lastN 200 (h.rx_data ++ ps.map rxEntry) ∧
    (pushPoints h ps).tx_data = lastN 200 (h.tx_data ++ ps.map txEntry) ∧
    (pushPoints h ps).rx_data.length ≤ 200 ∧
    (pushPoints h ps).tx_data.length = (pushPoints h ps).rx_data.length := by
  induction ps generalizing h with
  | nil =>
    refine ⟨?_, ?_, by simpa [pushPoints] using hlen, by simpa [pushPoints] using heq⟩
    · simp [pushPoints, lastN_of_length_le hlen]
    · simp [pushPoints, lastN_of_length_le (heq ▸ hlen : h.tx_data.length ≤ 200)]
  | cons p ps ih =>
    have hrx1 := push_point_rx_data h p.1 p.2.1 p.2.2 hlen
    have htx1 := push_point_tx_data h p.1 p.2.1 p.2.2 hlen heq
    have hlen1 : (h.push_point p.1 p.2.1 p.2.2).rx_data.length ≤ 200 := by
      rw [hrx1, length_lastN]; exact min_le_left _ _
    have heq1 : (h.push_point p.1 p.2.1 p.2.2).tx_data.length =
        (h.push_point p.1 p.2.1 p.2.2).rx_data.length := by
      rw [hrx1, htx1, length_lastN, length_lastN]
      simp [heq]
    have hstep : pushPoints h (p :: ps) =
        pushPoints (h.push_point p.1 p.2.1 p.2.2) ps := rfl
    obtain ⟨e1, e2, e3, e4⟩ := ih (h.push_point p.1 p.2.1 p.2.2) hlen1 heq1
    refine ⟨?_, ?_, hstep ▸ e3, hstep ▸ e4⟩
    · rw [hstep, e1, hrx1, lastN_append_left, List.append_assoc,
        List.singleton_append, List.map_cons]
      rfl
    · rw [hstep, e2, htx1, lastN_append_left, List.append_assoc,
        List.singleton_append, List.map_cons]
      rfl

/-- C6 witness: three points pushed into a fresh history appear in order
in both series, paired. -/
theorem c6_witness :
    (pushPoints (PortHistory.new "p" PortType.Rdma)
        [(0, 1, 2), (1, 3, 4), (2, 5, 6)]).rx_data =
      [((0 : ℚ), (1 : ℚ)), (1, 3), (2, 5)] ∧
    (pushPoints (PortHistory.new "p" PortType.Rdma)
        [(0, 1, 2), (1, 3, 4), (2, 5, 6)]).tx_data =
      [((0 : ℚ), (2 : ℚ)), (1, 4), (2, 6)] := by
  have h := c6_history_capacity_fifo (PortHistory.new "p" PortType.Rdma)
    [(0, 1, 2), (1, 3, 4), (2, 5, 6)] (by simp [PortHistory.new])
    (by simp [PortHistory.new])
  refine ⟨h.1.trans ?_, h.2.1.trans ?_⟩ <;>
    simp [PortHistory.new, lastN, rxEntry, txEntry]

/-! ## Shape lemmas for the sampling phase -/

theorem samplePhase_err_rx (s : SampleState) (now : ℚ) (e : ReadErr)
    (txRes : ReadResult) :
    samplePhase s now (.error e) txRes = { s with prev_sample_time := now } := by
  unfold samplePhase
  cases txRes <;> simp

theorem samplePhase_err_tx (s : SampleState) (now : ℚ) (rxRes : ReadResult)
    (e : ReadErr) :
    samplePhase s now rxRes (.error e) = { s with prev_sample_time := now } := by
  unfold samplePhase
  cases rxRes <;> simp

theorem samplePhase_uninit (s : SampleState) (now : ℚ) (a b : Nat)
    (h : s.initialized = false) :
    samplePhase s now (.ok a) (.ok b) =
      { s with prev_rx := a, prev_tx := b, initialized := true,
               prev_sample_time := now } := by
  unfold samplePhase
  simp [h]

theorem samplePhase_degenerate_dt (s : SampleState) (now : ℚ) (a b : Nat)
    (h : s.initialized = true) (hdt : now - s.prev_sample_time ≤ minEpsilonSec) :
    samplePhase s now (.ok a) (.ok b) =
      { s with prev_rx := a, prev_tx := b, prev_sample_time := now } := by
  unfold samplePhase
  simp [h, not_lt.mpr hdt]

theorem samplePhase_wraparound (s : SampleState) (now : ℚ) (a b : Nat)
    (h : s.initialized = true) (hdt : minEpsilonSec < now - s.prev_sample_time)
    (hwrap : ¬ (s.prev_rx ≤ a ∧ s.prev_tx ≤ b)) :
    samplePhase s now (.ok a) (.ok b) =
      { s with prev_rx := a, prev_tx := b, prev_sample_time := now } := by
  unfold samplePhase
  simp [h, hdt, hwrap]

theorem samplePhase_mono (s : SampleState) (now : ℚ) (a b : Nat)
    (h : s.initialized = true) (hdt : minEpsilonSec < now - s.prev_sample_time)
    (hmono : s.prev_rx ≤ a ∧ s.prev_tx ≤ b) :
    samplePhase s now (.ok a) (.ok b) =
      { s with prev_rx := a, prev_tx := b, prev_sample_time := now,
               window_max_rx :=
                 max s.window_max_rx
                   (((a - s.prev_rx : Nat) : ℚ) / (now - s.prev_sample_time)),
               window_max_tx :=
                 max s.window_max_tx
                   (((b - s.prev_tx : Nat) : ℚ) / (now - s.prev_sample_time)) } := by
  unfold samplePhase
  simp only [h, if_true, hdt, if_pos, hmono, and_true]
  rcases lt_or_le s.window_max_rx
      (((a - s.prev_rx : Nat) : ℚ) / (now - s.prev_sample_time)) with h1 | h1 <;>
    rcases lt_or_le s.window_max_tx
      (((b - s.prev_tx : Nat) : ℚ) / (now - s.prev_sample_time)) with h2 | h2 <;>
    simp [h1, h2, not_lt.mpr, max_eq_right, max_eq_left, le_of_lt, h]

/-! ## Shape lemmas for the commit phase -/

theorem commitPhase_not_due (s : SampleState) (now : ℚ) (lockOk : Bool)
    (h : now - s.last_commit_time < commitIntervalSec) :
    commitPhase s now lockOk = s := by
  unfold commitPhase
  rw [if_neg (not_le.mpr h)]

theorem commitPhase_due_ok (s : SampleState) (now : ℚ)
    (h : commitIntervalSec ≤ now - s.last_commit_time) :
    commitPhase s now true =
      { s with
          history := (s.history.push_point s.logical_time_axis
            s.window_max_rx s.window_max_tx),
          window_max_rx := 0, window_max_tx := 0, last_commit_time := now,
          logical_time_axis := s.logical_time_axis + logicalStepSec } := by
  unfold commitPhase
  rw [if_pos h]
  rfl

theorem commitPhase_due_fail (s : SampleState) (now : ℚ)
    (h : commitIntervalSec ≤ now - s.last_commit_time) :
    commitPhase s now false =
      { s with window_max_rx := 0, window_max_tx := 0, last_commit_time := now,
               logical_time_axis := s.logical_time_axis + logicalStepSec } := by
  unfold commitPhase
  rw [if_pos h]
  rfl

theorem commitPhase_sample_fields (s : SampleState) (now : ℚ) (lockOk : Bool) :
    (commitPhase s now lockOk).prev_rx = s.prev_rx ∧
    (commitPhase s now lockOk).prev_tx = s.prev_tx ∧
    (commitPhase s now lockOk).initialized = s.initialized ∧
    (commitPhase s now lockOk).prev_sample_time = s.prev_sample_time := by
  unfold commitPhase
  cases lockOk <;> split_ifs <;> simp

theorem samplePhase_fields (s : SampleState) (now : ℚ)
    (rxRes txRes : ReadResult) :
    (samplePhase s now rxRes txRes).last_commit_time = s.last_commit_time ∧
    (samplePhase s now rxRes txRes).history = s.history ∧
    (samplePhase s now rxRes txRes).logical_time_axis = s.logical_time_axis ∧
    (samplePhase s now rxRes txRes).prev_sample_time = now := by
  cases rxRes with
  | error e => simp [samplePhase_err_rx]
  | ok a =>
    cases txRes with
    | error e => simp [samplePhase_err_tx]
    | ok b =>
      cases hb : s.initialized with
      | false => simp [samplePhase_uninit s now a b hb]
      | true =>
        rcases le_or_lt (now - s.prev_sample_time) minEpsilonSec with hdt | hdt
        · simp [samplePhase_degenerate_dt s now a b hb hdt]
        · by_cases hmono : s.prev_rx ≤ a ∧ s.prev_tx ≤ b
          · simp [samplePhase_mono s now a b hb hdt hmono]
          · simp [samplePhase_wraparound s now a b hb hdt hmono]

theorem samplePhase_window_max (s : SampleState) (now : ℚ)
    (rxRes txRes : ReadResult) :
    (samplePhase s now rxRes txRes).window_max_rx =
      ((tickRates s now rxRes txRes).map Prod.fst).foldl max s.window_max_rx ∧
    (samplePhase s now rxRes txRes).window_max_tx =
      ((tickRates s now rxRes txRes).map Prod.snd).foldl max s.window_max_tx := by
  cases rxRes with
  | error e => simp [samplePhase_err_rx, tickRates]
  | ok a =>
    cases txRes with
    | error e => simp [samplePhase_err_tx, tickRates]
    | ok b =>
      cases hb : s.initialized with
      | false => simp [samplePhase_uninit s now a b hb, tickRates, hb]
      | true =>
        rcases le_or_lt (now - s.prev_sample_time) minEpsilonSec with hdt | hdt
        · simp [samplePhase_degenerate_dt s now a b hb hdt, tickRates, hb,
            not_lt.mpr hdt]
        · by_cases hmono : s.prev_rx ≤ a ∧ s.prev_tx ≤ b
          · simp [samplePhase_mono s now a b hb hdt hmono, tickRates, hb,
              hdt, hmono]
          · simp [samplePhase_wraparound s now a b hb hdt hmono, tickRates,
              hb, hdt, hmono]

theorem windowRates_append (s : SampleState) (l1 l2 : List TickIn) :
    windowRates s (l1 ++ l2) =
      windowRates s l1 ++ windowRates (runTicks s l1) l2 := by
  induction l1 generalizing s with
  | nil => simp [windowRates, runTicks]
  | cons i l ih =>
    have h1 := ih (tick s i.now i.rxRes i.txRes i.lockOk)
    show tickRates s i.now i.rxRes i.txRes ++
        windowRates (tick s i.now i.rxRes i.txRes i.lockOk) (l ++ l2) = _
    rw [h1, ← List.append_assoc]
    rfl

theorem runTicks_no_commit (s : SampleState) (l : List TickIn)
    (hl : ∀ j ∈ l, j.now - s.last_commit_time < commitIntervalSec) :
    (runTicks s l).window_max_rx =
      ((windowRates s l).map Prod.fst).foldl max s.window_max_rx ∧
    (runTicks s l).window_max_tx =
      ((windowRates s l).map Prod.snd).foldl max s.window_max_tx ∧
    (runTicks s l).last_commit_time = s.last_commit_time ∧
    (runTicks s l).history = s.history ∧
    (runTicks s l).logical_time_axis = s.logical_time_axis := by
  induction l generalizing s with
  | nil => simp [runTicks, windowRates]
  | cons i l ih =>
    have hno : i.now - s.last_commit_time < commitIntervalSec :=
      hl i (List.mem_cons_self i l)
    have hfields := samplePhase_fields s i.now i.rxRes i.txRes
    have hwin := samplePhase_window_max s i.now i.rxRes i.txRes
    have htick : tick s i.now i.rxRes i.txRes i.lockOk =
        samplePhase s i.now i.rxRes i.txRes := by
      unfold tick
      exact commitPhase_not_due _ i.now i.lockOk (by rw [hfields.1]; exact hno)
    have hstep : runTicks s (i :: l) =
        runTicks (tick s i.now i.rxRes i.txRes i.lockOk) l := rfl
    have hlw : ∀ j ∈ l,
        j.now - (tick s i.now i.rxRes i.txRes i.lockOk).last_commit_time <
          commitIntervalSec := by
      intro j hj
      rw [htick, hfields.1]
      exact hl j (List.mem_cons_of_mem i hj)
    obtain ⟨w1, w2, w3, w4, w5⟩ :=
      ih (tick s i.now i.rxRes i.txRes i.lockOk) hlw
    have hrates : windowRates s (i :: l) =
        tickRates s i.now i.rxRes i.txRes ++
          windowRates (tick s i.now i.rxRes i.txRes i.lockOk) l := rfl
    refine ⟨?_, ?_, ?_, ?_, ?_⟩
    · rw [hstep, w1, htick, hwin.1, hrates, List.map_append,
        List.foldl_append, htick]
    · rw [hstep, w2, htick, hwin.2, hrates, List.map_append,
        List.foldl_append, htick]
    · rw [hstep, w3, htick, hfields.1]
    · rw [hstep, w4, htick, hfields.2.1]
    · rw [hstep, w5, htick, hfields.2.2.1]


/-! ## Claim C1 -/

/-- C1 (amended): when the commit is due and the write acquisition fails,
no point is pushed for that window (one fewer point appears), but the
peak-hold accumulators are nonetheless reset to zero, the last-commit
timestamp advances to the current instant and the logical time axis
steps, so the peak observed in the window is dropped, not carried over. -/
theorem c1_failed_commit_resets_peaks (s : SampleState) (now : ℚ)
    (rxRes txRes : ReadResult)
    (hi : commitIntervalSec ≤ now - s.last_commit_time) :
    (tick s now rxRes txRes false).history = s.history ∧
    (tick s now rxRes txRes false).window_max_rx = 0 ∧
    (tick s now rxRes txRes false).window_max_tx = 0 ∧
    (tick s now rxRes txRes false).last_commit_time = now ∧
    (tick s now rxRes txRes false).logical_time_axis =
      s.logical_time_axis + logicalStepSec := by
  have hfields := samplePhase_fields s now rxRes txRes
  unfold tick
  rw [commitPhase_due_fail _ _ (by rw [hfields.1]; exact hi)]
  simp [hfields.1, hfields.2.1, hfields.2.2.1]

/-- C1 counterexample to the claim as stated: at an eligible tick whose
write fails, starting with window peaks 7 and 3, the peaks are reset to 0
(not left unchanged) and the last-commit timestamp advances from 0 to the
current instant 1 (it does not stay eligible), so the observed peak is
lost. -/
theorem c1_counterexample :
    (tick (mkState 0 0 true 7 3 0 0 0) 1 (.error .ioError) (.error .ioError)
      false).window_max_rx = 0 ∧
    (tick (mkState 0 0 true 7 3 0 0 0) 1 (.error .ioError) (.error .ioError)
      false).window_max_tx = 0 ∧
    (tick (mkState 0 0 true 7 3 0 0 0) 1 (.error .ioError) (.error .ioError)
      false).last_commit_time = 1 ∧
    (tick (mkState 0 0 true 7 3 0 0 0) 1 (.error .ioError) (.error .ioError)
      false).history.rx_data = [] ∧
    (0 : ℚ) ≠ 7 ∧ (1 : ℚ) ≠ 0 := by
  norm_num [tick, samplePhase, commitPhase, mkState, commitIntervalSec,
    logicalStepSec, PortHistory.new]

/-- C1 witness. -/
theorem c1_witness :
    (tick (mkState 0 0 true 7 3 0 0 0) 1 (.error .ioError) (.error .ioError)
      false).window_max_rx = 0 ∧
    (tick (mkState 0 0 true 7 3 0 0 0) 1 (.error .ioError) (.error .ioError)
      false).last_commit_time = 1 := by
  have h := c1_failed_commit_resets_peaks (mkState 0 0 true 7 3 0 0 0) 1
    (.error .ioError) (.error .ioError)
    (by norm_num [mkState, commitIntervalSec])
  exact ⟨h.2.1, h.2.2.2.1⟩


/-! ## Claim C2 -/

/-- C2 (amended): on a successful, initialized, monotone tick with
non-degenerate elapsed time, the rate folded into the peak-hold is
`(new − old) / elapsed` for each direction: the chart monitor applies no
unit multiplier, for either port type (`monitor.rs` lines 122–125). -/
theorem c2_rate_is_delta_over_elapsed (s : SampleState) (now : ℚ) (a b : Nat)
    (h : s.initialized = true) (hdt : minEpsilonSec < now - s.prev_sample_time)
    (hrx : s.prev_rx ≤ a) (htx : s.prev_tx ≤ b) :
    (samplePhase s now (.ok a) (.ok b)).window_max_rx =
      max s.window_max_rx
        (((a - s.prev_rx : Nat) : ℚ) / (now - s.prev_sample_time)) ∧
    (samplePhase s now (.ok a) (.ok b)).window_max_tx =
      max s.window_max_tx
        (((b - s.prev_tx : Nat) : ℚ) / (now - s.prev_sample_time)) := by
  rw [samplePhase_mono s now a b h hdt ⟨hrx, htx⟩]
  exact ⟨rfl, rfl⟩

/-- C2 counterexample to the claim as stated: an RDMA-port engine with raw
delta 10 over 1.0 s elapsed accumulates the rate 10 bytes/sec, whereas the
spec-modelled formula with `bytes_per_count = 4` prescribes 40. -/
theorem c2_counterexample :
    (samplePhase (mkState 0 0 true 0 0 1 0 0) 1 (.ok 10)
      (.ok 10)).window_max_rx = 10 ∧
    specRate PortType.Rdma 10 1 = 40 ∧ ((10 : ℚ) ≠ 40) := by
  refine ⟨?_, by norm_num [specRate, bytes_per_count], by norm_num⟩
  norm_num [samplePhase, mkState, minEpsilonSec, PortHistory.new]

/-- C2 witness. -/
theorem c2_witness :
    (samplePhase (mkState 0 0 true 0 0 1 0 0) 1 (.ok 10)
      (.ok 10)).window_max_rx = max 0 (((10 - 0 : Nat) : ℚ) / (1 - 0)) ∧
    max (0 : ℚ) (((10 - 0 : Nat) : ℚ) / (1 - 0)) = 10 := by
  constructor
  · exact (c2_rate_is_delta_over_elapsed (mkState 0 0 true 0 0 1 0 0) 1 10 10
      rfl (by norm_num [mkState, minEpsilonSec]) (by norm_num [mkState])
      (by norm_num [mkState])).1
  · norm_num

/-! ## Claim C3 -/

/-- C3 counterexample to the claim as stated: at a commit point where a
reader holds the lock, the acquisition the code performs (`history.write()`)
leaves the producer blocked — waiting on the reader — which differs from
the immediate no-wait return of the non-blocking try-acquire the claim
asserts. -/
theorem c3_counterexample :
    commitWriterAcquire true = WriteAcq.blocked ∧
    specTryWrite true = WriteAcq.wouldBlock ∧
    commitWriterAcquire true ≠ specTryWrite true := by
  refine ⟨rfl, rfl, ?_⟩
  intro h
  cases h

/-- C3 (amended): the writer acquisition at the 50 ms commit point is the
blocking `RwLock::write`: it acquires at once when the lock is free, makes
the producer wait while a reader holds it, and never returns the
immediate would-block outcome of a try-acquire; so the 1 ms loop can be
stalled by a reader holding the lock at the commit moment. -/
theorem c3_commit_write_is_blocking (readerHolds : Bool) :
    commitWriterAcquire readerHolds =
      (if readerHolds then WriteAcq.blocked else WriteAcq.acquired) ∧
    commitWriterAcquire readerHolds ≠ WriteAcq.wouldBlock ∧
    (commitWriterAcquire readerHolds = specTryWrite readerHolds ↔
      readerHolds = false) := by
  cases readerHolds <;> decide


/-! ## Claim C4 -/

/-- C4: on an initialized tick with successful reads where a counter
decreased (wraparound/reset) or the elapsed time does not exceed the
epsilon, no rate is folded in — the sampling phase leaves both window
peaks untouched (and so does the whole tick when no commit is due), a
decrease is never turned into a rate — yet the stored previous values
always advance to the newly read ones. -/
theorem c4_wraparound_discards_tick (s : SampleState) (now : ℚ) (a b : Nat)
    (lockOk : Bool) (hinit : s.initialized = true)
    (hbad : a < s.prev_rx ∨ b < s.prev_tx ∨
      now - s.prev_sample_time ≤ minEpsilonSec) :
    (samplePhase s now (.ok a) (.ok b)).window_max_rx = s.window_max_rx ∧
    (samplePhase s now (.ok a) (.ok b)).window_max_tx = s.window_max_tx ∧
    (tick s now (.ok a) (.ok b) lockOk).prev_rx = a ∧
    (tick s now (.ok a) (.ok b) lockOk).prev_tx = b ∧
    (now - s.last_commit_time < commitIntervalSec →
      (tick s now (.ok a) (.ok b) lockOk).window_max_rx = s.window_max_rx ∧
      (tick s now (.ok a) (.ok b) lockOk).window_max_tx = s.window_max_tx) := by
  have hshape : samplePhase s now (.ok a) (.ok b) =
      { s with prev_rx := a, prev_tx := b, prev_sample_time := now } := by
    rcases le_or_lt (now - s.prev_sample_time) minEpsilonSec with hdt | hdt
    · exact samplePhase_degenerate_dt s now a b hinit hdt
    · have hwrap : ¬ (s.prev_rx ≤ a ∧ s.prev_tx ≤ b) := by
        rcases hbad with h | h | h
        · exact fun hc => absurd hc.1 (by omega)
        · exact fun hc => absurd hc.2 (by omega)
        · exact absurd hdt (not_lt.mpr h)
      exact samplePhase_wraparound s now a b hinit hdt hwrap
  have hcp := commitPhase_sample_fields (samplePhase s now (.ok a) (.ok b))
    now lockOk
  refine ⟨by rw [hshape], by rw [hshape], ?_, ?_, ?_⟩
  · show (commitPhase _ now lockOk).prev_rx = a
    rw [hcp.1, hshape]
  · show (commitPhase _ now lockOk).prev_tx = b
    rw [hcp.2.1, hshape]
  · intro hno
    have hfields := samplePhase_fields s now (.ok a) (.ok b)
    have htick : tick s now (.ok a) (.ok b) lockOk =
        samplePhase s now (.ok a) (.ok b) := by
      unfold tick
      exact commitPhase_not_due _ now lockOk (by rw [hfields.1]; exact hno)
    rw [htick, hshape]
    exact ⟨rfl, rfl⟩

/-- C4 witness: the counter sequence 100 then 50 (with no commit due)
discards the delta — window peaks stay at 5 and 6 — and the baseline
advances to 50. -/
theorem c4_witness :
    (tick (mkState 100 100 true 5 6 1 0 0) 1 (.ok 50) (.ok 120)
      true).prev_rx = 50 ∧
    (tick (mkState 100 100 true 5 6 1 0 0) 1 (.ok 50) (.ok 120)
      true).window_max_rx = 5 ∧
    (tick (mkState 100 100 true 5 6 1 0 0) 1 (.ok 50) (.ok 120)
      true).window_max_tx = 6 := by
  have h := c4_wraparound_discards_tick (mkState 100 100 true 5 6 1 0 0) 1
    50 120 true rfl (Or.inl (by norm_num [mkState]))
    
  refine ⟨h.2.2.1, ?_, ?_⟩
  · exact ((h.2.2.2.2 (by norm_num [mkState, commitIntervalSec])).1).trans
      (by norm_num [mkState])
  · exact ((h.2.2.2.2 (by norm_num [mkState, commitIntervalSec])).2).trans
      (by norm_num [mkState])

/-! ## Claim C8 -/

/-- C8 (amended): on an initialized tick where reading either counter
fails, the engine keeps its baseline: previous raw values are retained,
the initialized flag stays set, nothing is contributed to the window
peaks, and (when no commit is due) the whole state is unchanged except
that the previous-sample timestamp advances to the current instant — the
timestamp is not retained at the previous successful sample. -/
theorem c8_read_failure_keeps_baseline (s : SampleState) (now : ℚ)
    (rxRes txRes : ReadResult) (lockOk : Bool)
    (hinit : s.initialized = true)
    (hfail : rxRes.isOk = false ∨ txRes.isOk = false) :
    samplePhase s now rxRes txRes = { s with prev_sample_time := now } ∧
    (tick s now rxRes txRes lockOk).prev_rx = s.prev_rx ∧
    (tick s now rxRes txRes lockOk).prev_tx = s.prev_tx ∧
    (tick s now rxRes txRes lockOk).initialized = true ∧
    (tick s now rxRes txRes lockOk).prev_sample_time = now ∧
    (now - s.last_commit_time < commitIntervalSec →
      tick s now rxRes txRes lockOk = { s with prev_sample_time := now }) := by
  have hshape : samplePhase s now rxRes txRes =
      { s with prev_sample_time := now } := by
    rcases hfail with hf | hf
    · cases rxRes with
      | ok v => simp [Except.isOk, Except.toBool] at hf
      | error e => exact samplePhase_err_rx s now e txRes
    · cases txRes with
      | ok v => simp [Except.isOk, Except.toBool] at hf
      | error e => exact samplePhase_err_tx s now rxRes e
  have hcp := commitPhase_sample_fields (samplePhase s now rxRes txRes)
    now lockOk
  refine ⟨hshape, ?_, ?_, ?_, ?_, ?_⟩
  · show (commitPhase _ now lockOk).prev_rx = s.prev_rx
    rw [hcp.1, hshape]
  · show (commitPhase _ now lockOk).prev_tx = s.prev_tx
    rw [hcp.2.1, hshape]
  · show (commitPhase _ now lockOk).initialized = true
    rw [hcp.2.2.1, hshape]
    exact hinit
  · show (commitPhase _ now lockOk).prev_sample_time = now
    rw [hcp.2.2.2, hshape]
  · intro hno
    have hfields := samplePhase_fields s now rxRes txRes
    show commitPhase _ now lockOk = _
    rw [commitPhase_not_due _ now lockOk (by rw [hfields.1]; exact hno), hshape]

/-- C8 counterexample to the claim as stated: on an initialized tick whose
rx read fails, the previous raw values are retained (42, 43) but the
previous-sample timestamp is not: it advances from 0 to the current
instant 5. -/
theorem c8_counterexample :
    (tick (mkState 42 43 true 5 6 5 0 0) 5 (.error .ioError) (.ok 7)
      true).prev_rx = 42 ∧
    (tick (mkState 42 43 true 5 6 5 0 0) 5 (.error .ioError) (.ok 7)
      true).prev_tx = 43 ∧
    (tick (mkState 42 43 true 5 6 5 0 0) 5 (.error .ioError) (.ok 7)
      true).prev_sample_time = 5 ∧
    ((5 : ℚ) ≠ 0) := by
  norm_num [tick, samplePhase, commitPhase, mkState, commitIntervalSec,
    PortHistory.new]

/-- C8 witness. -/
theorem c8_witness :
    tick (mkState 42 43 true 5 6 5 0 0) 5 (.error .ioError) (.ok 7) true =
      { mkState 42 43 true 5 6 5 0 0 with prev_sample_time := 5 } := by
  exact (c8_read_failure_keeps_baseline (mkState 42 43 true 5 6 5 0 0) 5
    (.error .ioError) (.ok 7) true rfl (Or.inl rfl)).2.2.2.2.2
    (by norm_num [mkState, commitIntervalSec])


/-! ## Claim C5 -/

/-- C5: over a window of sampling ticks that starts with zeroed peak-hold
accumulators and triggers no intermediate commit, the point committed at
the first eligible tick with a successful write carries, for each
direction, exactly the running maximum (peak-hold, floor 0) of all
instantaneous rates observed in the window — not the last value, not the
average — and on that successful commit both accumulators are reset to
zero and the last-commit timestamp advances to the commit instant. -/
theorem c5_commit_carries_window_peak (s : SampleState) (l : List TickIn)
    (i : TickIn) (hwrx : s.window_max_rx = 0) (hwtx : s.window_max_tx = 0)
    (hl : ∀ j ∈ l, j.now - s.last_commit_time < commitIntervalSec)
    (hi : commitIntervalSec ≤ i.now - s.last_commit_time)
    (hlock : i.lockOk = true) :
    (runTicks s (l ++ [i])).history =
      s.history.push_point s.logical_time_axis
        (((windowRates s (l ++ [i])).map Prod.fst).foldl max 0)
        (((windowRates s (l ++ [i])).map Prod.snd).foldl max 0) ∧
    (runTicks s (l ++ [i])).window_max_rx = 0 ∧
    (runTicks s (l ++ [i])).window_max_tx = 0 ∧
    (runTicks s (l ++ [i])).last_commit_time = i.now := by
  obtain ⟨w1, w2, w3, w4, w5⟩ := runTicks_no_commit s l hl
  have hrun : runTicks s (l ++ [i]) =
      tick (runTicks s l) i.now i.rxRes i.txRes i.lockOk := by
    unfold runTicks
    rw [List.foldl_append]
    rfl
  have hsf := samplePhase_fields (runTicks s l) i.now i.rxRes i.txRes
  have hsw := samplePhase_window_max (runTicks s l) i.now i.rxRes i.txRes
  have hdue : commitIntervalSec ≤
      i.now - (samplePhase (runTicks s l) i.now i.rxRes i.txRes).last_commit_time := by
    rw [hsf.1, w3]
    exact hi
  have htick : tick (runTicks s l) i.now i.rxRes i.txRes i.lockOk =
      commitPhase (samplePhase (runTicks s l) i.now i.rxRes i.txRes)
        i.now true := by
    rw [← hlock]
    rfl
  have hsingle : windowRates (runTicks s l) [i] =
      tickRates (runTicks s l) i.now i.rxRes i.txRes := by
    simp [windowRates]
  have hwr : windowRates s (l ++ [i]) =
      windowRates s l ++ tickRates (runTicks s l) i.now i.rxRes i.txRes := by
    rw [windowRates_append s l [i], hsingle]
  have hmaxrx : (samplePhase (runTicks s l) i.now i.rxRes i.txRes).window_max_rx =
      ((windowRates s (l ++ [i])).map Prod.fst).foldl max 0 := by
    rw [hsw.1, w1, hwrx, hwr, List.map_append, List.foldl_append]
  have hmaxtx : (samplePhase (runTicks s l) i.now i.rxRes i.txRes).window_max_tx =
      ((windowRates s (l ++ [i])).map Prod.snd).foldl max 0 := by
    rw [hsw.2, w2, hwtx, hwr, List.map_append, List.foldl_append]
  rw [hrun, htick, commitPhase_due_ok _ _ hdue]
  refine ⟨?_, rfl, rfl, rfl⟩
  show (samplePhase (runTicks s l) i.now i.rxRes i.txRes).history.push_point
      (samplePhase (runTicks s l) i.now i.rxRes i.txRes).logical_time_axis
      (samplePhase (runTicks s l) i.now i.rxRes i.txRes).window_max_rx
      (samplePhase (runTicks s l) i.now i.rxRes i.txRes).window_max_tx = _
  rw [hsf.2.1, w4, hsf.2.2.1, w5, hmaxrx, hmaxtx]


theorem c5_rates_eval :
    (windowRates (mkState 0 0 true 0 0 0 0 0)
        (winTicks ++ [commitTick])).map Prod.fst = [100, 500, 300] ∧
    (windowRates (mkState 0 0 true 0 0 0 0 0)
        (winTicks ++ [commitTick])).map Prod.snd = [100, 100, 100] := by
  norm_num [winTicks, commitTick, windowRates, tickRates, tick, samplePhase,
    commitPhase, runTicks, mkState, minEpsilonSec, commitIntervalSec,
    logicalStepSec, PortHistory.new, PortHistory.push_point]


/-- C5 witness: rates 100, 500, 300 observed within one window commit the
point `(0, 500)` for rx (the maximum — not the last value 300, not the
average 300) and `(0, 100)` for tx; the accumulators reset and the
last-commit timestamp advances to 60 ms. -/
theorem c5_witness :
    (runTicks (mkState 0 0 true 0 0 0 0 0)
        (winTicks ++ [commitTick])).history.rx_data = [((0 : ℚ), (500 : ℚ))] ∧
    (runTicks (mkState 0 0 true 0 0 0 0 0)
        (winTicks ++ [commitTick])).history.tx_data = [((0 : ℚ), (100 : ℚ))] ∧
    (runTicks (mkState 0 0 true 0 0 0 0 0)
        (winTicks ++ [commitTick])).window_max_rx = 0 ∧
    (runTicks (mkState 0 0 true 0 0 0 0 0)
        (winTicks ++ [commitTick])).window_max_tx = 0 ∧
    (runTicks (mkState 0 0 true 0 0 0 0 0)
        (winTicks ++ [commitTick])).last_commit_time = 6 / 100 ∧
    ((500 : ℚ) ≠ 300 ∧ (500 : ℚ) ≠ (100 + 500 + 300) / 3) := by
  have h := c5_commit_carries_window_peak (mkState 0 0 true 0 0 0 0 0)
    winTicks commitTick rfl rfl
    (by
      intro j hj
      fin_cases hj <;> norm_num [mkState, commitIntervalSec, winTicks])
    (by norm_num [mkState, commitIntervalSec, commitTick]) rfl
  have hr := c5_rates_eval
  have hfrx : ((windowRates (mkState 0 0 true 0 0 0 0 0)
      (winTicks ++ [commitTick])).map Prod.fst).foldl max 0 = 500 := by
    rw [hr.1]
    show max (max (max 0 100) 500) 300 = 500
    norm_num [max_def]
  have hftx : ((windowRates (mkState 0 0 true 0 0 0 0 0)
      (winTicks ++ [commitTick])).map Prod.snd).foldl max 0 = 100 := by
    rw [hr.2]
    show max (max (max 0 100) 100) 100 = 100
    norm_num [max_def]
  refine ⟨?_, ?_, h.2.1, h.2.2.1, h.2.2.2, by norm_num, by norm_num⟩
  · rw [h.1, hfrx, hftx]
    norm_num [mkState, PortHistory.new, PortHistory.push_point]
  · rw [h.1, hfrx, hftx]
    norm_num [mkState, PortHistory.new, PortHistory.push_point]

end RdmaDash
